import Mathlib

/-!
Verification of the incremental synchronization engine of the `digest`
repository, shallowly embedded in Lean 4.

Source files embedded here:
  * `src/core/sync/incremental_sync.ts`  (`IncrementalSyncManager`)
  * `src/core/sync/pr_sync.ts`           (`PRSyncService`)
  * `src/core/sync/sync_orchestrator.ts` (`SyncOrchestrator`)
  * `src/core/storage/sqlite_store.ts`   (`SqliteStore`)
  * `src/core/config.ts`                 (`WorkspaceManager.updateRepositorySync`)

Timestamps (ISO date strings compared via `new Date(..)` in the source) are
modelled as natural numbers ordered by `<`.  PR states are modelled as the
strings the source compares against (`"open"`, `"closed"`, `"merged"`).
-/

namespace Digest

/-- A stored pull-request row (`PullRequest` in `storage/types.ts`,
table `prs` in `sqlite_store.ts`).  Natural key: `(repository, number)`. -/
structure PullRequest where
  number : Nat
  repository : String
  author : String
  title : String
  created_at : Nat
  merged_at : Option Nat
  additions : Nat
  deletions : Nat
  changed_files : Nat
  has_tests : Bool
  synced_at : Nat
  deriving DecidableEq, Repr

/-- A stored review row (`Review` in `storage/types.ts`, table `reviews`).
Natural key: `(repository, pr_number, reviewer)`. -/
structure Review where
  pr_number : Nat
  repository : String
  reviewer : String
  state : String
  submitted_at : Nat
  synced_at : Nat
  deriving DecidableEq, Repr

/-- Whether two PR rows share the natural key `(repository, number)`. -/
def prSameKey (a b : PullRequest) : Bool :=
  a.repository == b.repository && a.number == b.number

/-- Whether two review rows share the natural key
`(repository, pr_number, reviewer)`. -/
def reviewSameKey (a b : Review) : Bool :=
  a.repository == b.repository && a.pr_number == b.pr_number &&
    a.reviewer == b.reviewer

/-- `SqliteStore.addPR`: `INSERT OR REPLACE INTO prs` with
`PRIMARY KEY (repository, number)` — a keyed last-write-wins upsert.
Modelled as: drop every row with the new row's key, then insert the row. -/
def addPR (store : List PullRequest) (pr : PullRequest) : List PullRequest :=
  pr :: store.filter (fun p => !prSameKey p pr)

/-- `SqliteStore.addReview`: `INSERT OR REPLACE INTO reviews` with
`PRIMARY KEY (repository, pr_number, reviewer)`. -/
def addReview (store : List Review) (r : Review) : List Review :=
  r :: store.filter (fun q => !reviewSameKey q r)

/-- `SqliteStore.getPRs({repository})`: all PR rows of one repository. -/
def getPRs (store : List PullRequest) (repository : String) : List PullRequest :=
  store.filter (fun p => p.repository == repository)

/-- `IncrementalSyncManager.getLastSyncedPRNumber`: highest stored PR number
for the repository, `0` when none are stored. -/
def getLastSyncedPRNumber (store : List PullRequest) (repository : String) : Nat :=
  let existingPRs := getPRs store repository
  if existingPRs.isEmpty then 0
  else (existingPRs.map (·.number)).foldl max 0

/-- `IncrementalSyncManager.getLastSyncTime`: most recent `synced_at` among
the repository's stored PRs, `none` when none are stored. -/
def getLastSyncTime (store : List PullRequest) (repository : String) : Option Nat :=
  let existingPRs := getPRs store repository
  if existingPRs.isEmpty then none
  else some ((existingPRs.map (·.synced_at)).foldl max 0)

/-- The `reason` field of `IncrementalSyncManager.shouldProcessPR`. -/
inductive SyncReason where
  | newPR
  | updatedOpenPR
  | alreadySynced
  | immutableClosed
  deriving DecidableEq, Repr

/-- The return value of `IncrementalSyncManager.shouldProcessPR`. -/
structure SyncDecision where
  shouldProcess : Bool
  reason : SyncReason
  deriving DecidableEq, Repr

/-- The JS guard `lastSyncTime && new Date(prUpdatedAt) > new Date(lastSyncTime)`:
true when the last sync time is non-null and the update time is strictly
later. -/
def updatedSince (lastSyncTime : Option Nat) (t : Nat) : Bool :=
  match lastSyncTime with
  | some s => decide (t > s)
  | none => false

/-- The decision logic of `IncrementalSyncManager.shouldProcessPR`, factored
over the resolved sync state `(lastSyncedPRNumber, lastSyncTime)`.  The
branch structure mirrors the source line by line, including the final
(unreachable) fall-through return. -/
def shouldProcessPRResolved (lastSyncedPRNumber : Nat) (lastSyncTime : Option Nat)
    (prNumber : Nat) (prState : String) (prUpdatedAt : Nat) : SyncDecision :=
  if prNumber > lastSyncedPRNumber then
    ⟨true, .newPR⟩
  else if prNumber ≤ lastSyncedPRNumber then
    if prState = "closed" ∨ prState = "merged" then
      ⟨false, .immutableClosed⟩
    else if prState = "open" ∧ updatedSince lastSyncTime prUpdatedAt = true then
      ⟨true, .updatedOpenPR⟩
    else
      ⟨false, .alreadySynced⟩
  else
    ⟨false, .alreadySynced⟩

/-- `IncrementalSyncManager.shouldProcessPR`: resolves the sync state from
the store on every call, then applies the decision logic. -/
def shouldProcessPR (store : List PullRequest) (repository : String)
    (prNumber : Nat) (prState : String) (prUpdatedAt : Nat) : SyncDecision :=
  shouldProcessPRResolved (getLastSyncedPRNumber store repository)
    (getLastSyncTime store repository) prNumber prState prUpdatedAt

/-- The four decisions of the specification's classification table. -/
inductive Decision where
  | New
  | UpdatedOpen
  | SkipImmutable
  | SkipUnchanged
  deriving DecidableEq, Repr

/-- The spec-level reading of a code decision:
`new-pr` ↦ New, `updated-open-pr` ↦ UpdatedOpen,
`immutable-closed` ↦ SkipImmutable, `already-synced` ↦ SkipUnchanged. -/
def decisionOfReason : SyncReason → Decision
  | .newPR => .New
  | .updatedOpenPR => .UpdatedOpen
  | .immutableClosed => .SkipImmutable
  | .alreadySynced => .SkipUnchanged

/-- Modelled from the spec's decision table (§4.1), word for word:
number above the cutoff ⇒ New; else terminal state ⇒ SkipImmutable; else
open, non-null last sync time and updated since ⇒ UpdatedOpen; else
SkipUnchanged. -/
def specClassify (candNumber : Nat) (candState : String) (candUpdatedAt : Nat)
    (lastSyncedPRNumber : Nat) (lastSyncTime : Option Nat) : Decision :=
  if candNumber > lastSyncedPRNumber then .New
  else if candState = "closed" ∨ candState = "merged" then .SkipImmutable
  else if candState = "open" ∧ updatedSince lastSyncTime candUpdatedAt = true then
    .UpdatedOpen
  else .SkipUnchanged

/-! ## Test-detection heuristic (`PRSyncService.detectTests`) -/

/-- A file path lowercased character by character (the `/i` flag of the
source's regular expressions; all patterns are ASCII). -/
def lowerPath (s : String) : List Char := s.data.map Char.toLower

/-- Whether `pat` occurs as a contiguous substring of `s`. -/
def hasInfixB (pat : List Char) : List Char → Bool
  | [] => pat.isPrefixOf []
  | c :: rest => pat.isPrefixOf (c :: rest) || hasInfixB pat rest

/-- One file path matched against the source's fixed pattern array:
`.test.`, `.spec.`, `(^|/)tests?/`, `__tests__`, `.stories.`, `cypress/`,
`playwright/`, `jest.config`, `vitest.config`, all case-insensitive. -/
def matchesTestPattern (filename : String) : Bool :=
  let f := lowerPath filename
  hasInfixB ".test.".data f ||
  hasInfixB ".spec.".data f ||
  ("test/".data.isPrefixOf f || "tests/".data.isPrefixOf f ||
    hasInfixB "/test/".data f || hasInfixB "/tests/".data f) ||
  hasInfixB "__tests__".data f ||
  hasInfixB ".stories.".data f ||
  hasInfixB "cypress/".data f ||
  hasInfixB "playwright/".data f ||
  hasInfixB "jest.config".data f ||
  hasInfixB "vitest.config".data f

/-- `PRSyncService.detectTests`: true iff some changed file matches some
pattern. -/
def detectTests (files : List String) : Bool :=
  files.any matchesTestPattern

/-- Modelled from the spec: the pattern set of §4.4/C8, where "a path
segment `test` or `tests`" is read literally — some slash-separated
component of the path equals `test` or `tests` (final component
included). -/
def specFileMatches (filename : String) : Prop :=
  let f := lowerPath filename
  ".test.".data <:+: f ∨ ".spec.".data <:+: f ∨
  (∃ seg ∈ List.splitOn '/' f, seg = "test".data ∨ seg = "tests".data) ∨
  "__tests__".data <:+: f ∨ ".stories.".data <:+: f ∨
  "cypress/".data <:+: f ∨ "playwright/".data <:+: f ∨
  "jest.config".data <:+: f ∨ "vitest.config".data <:+: f

/-- The amended pattern set: as `specFileMatches`, but the `test`/`tests`
segment must be a directory component — delimited on the left by the start
of the path or a `/`, and on the right by a further `/`. -/
def amendedFileMatches (filename : String) : Prop :=
  let f := lowerPath filename
  ".test.".data <:+: f ∨ ".spec.".data <:+: f ∨
  (∃ pre seg post, (seg = "test".data ∨ seg = "tests".data) ∧
    f = pre ++ seg ++ '/' :: post ∧
    (pre = [] ∨ ∃ q, pre = q ++ ['/'])) ∨
  "__tests__".data <:+: f ∨ ".stories.".data <:+: f ∨
  "cypress/".data <:+: f ∨ "playwright/".data <:+: f ∨
  "jest.config".data <:+: f ∨ "vitest.config".data <:+: f

/-! ## The fetch-process pipeline (`PRSyncService`) -/

/-- A PR item as returned by the remote listing (`RawPR` in
`types/index.ts`), restricted to the fields the sync engine reads.
Optional fields mirror the source's `?.`/`||` fallbacks. -/
structure RawPR where
  number : Nat
  state : String
  title : String
  user : Option String
  created_at : Nat
  updated_at : Option Nat
  merged_at : Option Nat
  additions : Option Nat
  deletions : Option Nat
  changed_files : Option Nat
  deriving DecidableEq, Repr

/-- A review item as returned by the remote client (`RawReview`). -/
structure RawReview where
  user : Option String
  state : Option String
  submitted_at : Option Nat
  deriving DecidableEq, Repr

/-- Outcomes of the per-PR auxiliary calls of the remote source client:
either a value or a thrown error message. -/
structure RemoteAux where
  filesOf : Nat → Except String (List String)
  reviewsOf : Nat → Except String (List RawReview)

/-- `PRSyncService.fetchPRFiles`: catches any fetch error and returns the
empty list ("won't detect tests"). -/
def fetchPRFiles (aux : RemoteAux) (prNumber : Nat) : List String :=
  match aux.filesOf prNumber with
  | .ok files => files
  | .error _ => []

/-- `PRSyncService.fetchPRReviews`: catches any fetch error and returns the
empty list. -/
def fetchPRReviews (aux : RemoteAux) (prNumber : Nat) : List RawReview :=
  match aux.reviewsOf prNumber with
  | .ok reviews => reviews
  | .error _ => []

/-- The entity store: the `prs` and `reviews` tables. -/
structure Store where
  prs : List PullRequest
  reviews : List Review
  deriving DecidableEq, Repr

/-- `PRSyncResult` from `pr_sync.ts`: per-attempt counters, the
`(pr, error)` list and the completion timestamp. -/
structure SyncResult where
  totalPRs : Nat
  newPRs : Nat
  updatedPRs : Nat
  newReviews : Nat
  errors : List (Nat × String)
  lastSyncAt : Nat
  deriving DecidableEq, Repr

/-- The fresh result created at the start of `syncRepository`. -/
def initResult (now : Nat) : SyncResult :=
  { totalPRs := 0
    newPRs := 0
    updatedPRs := 0
    newReviews := 0
    errors := []
    lastSyncAt := now }

/-- The `PullRequest` record built in `PRSyncService.processPR`, with the
source's fallbacks (`user?.login || 'unknown'`, `additions || 0`, …). -/
def buildPRRecord (repository : String) (now : Nat) (pr : RawPR)
    (hasTests : Bool) : PullRequest :=
  { number := pr.number
    repository := repository
    author := pr.user.getD "unknown"
    title := pr.title
    created_at := pr.created_at
    merged_at := pr.merged_at
    additions := pr.additions.getD 0
    deletions := pr.deletions.getD 0
    changed_files := pr.changed_files.getD 0
    has_tests := hasTests
    synced_at := now }

/-- The body of the review loop in `PRSyncService.processPR`: a review
entry with known reviewer, state and submission time is upserted and
counted; any other entry is silently dropped. -/
def processReviewStep (repository : String) (now : Nat) (prNumber : Nat)
    (acc : Store × SyncResult) (rv : RawReview) : Store × SyncResult :=
  match rv.user, rv.state, rv.submitted_at with
  | some u, some s, some t =>
    (⟨acc.1.prs,
      addReview acc.1.reviews ⟨prNumber, repository, u, s, t, now⟩⟩,
     { acc.2 with newReviews := acc.2.newReviews + 1 })
  | _, _, _ => acc

/-- `PRSyncService.processPR`: fetch the changed files (failure ⇒ `[]`),
compute `has_tests`, upsert the PR record, then fetch the reviews
(failure ⇒ `[]`) and upsert one review record per entry having a known
reviewer, state and submission time (others silently dropped), counting
`newReviews`. -/
def processPR (aux : RemoteAux) (repository : String) (now : Nat)
    (st : Store) (res : SyncResult) (pr : RawPR) : Store × SyncResult :=
  let files := fetchPRFiles aux pr.number
  let hasTests := detectTests files
  let st1 : Store :=
    { st with prs := addPR st.prs (buildPRRecord repository now pr hasTests) }
  let reviews := fetchPRReviews aux pr.number
  reviews.foldl (processReviewStep repository now pr.number) (st1, res)

/-- One `pulls.list` request of the page loop: the 1-based page number and
the `since` filter it carried. -/
structure FetchRequest where
  page : Nat
  since : Option Nat
  deriving DecidableEq, Repr

/-- The mutable state of one run of the pipeline: the store, the result
being built, the categorised `newPRs`/`updatedPRs` arrays, the requests
issued so far, the progress phases emitted so far, and `totalProcessed`. -/
structure PipeState where
  store : Store
  result : SyncResult
  newPRs : List RawPR
  updatedPRs : List RawPR
  requests : List FetchRequest
  events : List String
  processedCount : Nat
  deriving DecidableEq, Repr

/-- The fixed page size of the listing requests. -/
def perPage : Nat := 100

/-- Every field of a `SyncResult` except `newReviews` (the only one the
review loop touches). -/
def resView (res : SyncResult) : Nat × Nat × Nat × List (Nat × String) × Nat :=
  (res.totalPRs, res.newPRs, res.updatedPRs, res.errors, res.lastSyncAt)

/-- Every field of a `PipeState` except the entity store: what one run of
the pipeline reports back, as opposed to what it persists. -/
def pipeView (s : PipeState) :
    SyncResult × List RawPR × List RawPR × List FetchRequest × List String × Nat :=
  (s.result, s.newPRs, s.updatedPRs, s.requests, s.events, s.processedCount)

/-- The per-PR body of the page loop in
`PRSyncService.fetchAndProcessIncremental`: under `force` every PR is
pushed to `newPRs` and processed; otherwise `shouldProcessPR` is consulted
(against the *current* store) and accepted PRs are categorised and
processed, skipped ones left untouched. -/
def processOnePR (aux : RemoteAux) (repository : String) (now : Nat)
    (force : Bool) (s : PipeState) (pr : RawPR) : PipeState :=
  if force then
    let s1 := { s with newPRs := s.newPRs ++ [pr] }
    let out := processPR aux repository now s1.store s1.result pr
    { s1 with
      store := out.1
      result := out.2
      processedCount := s1.processedCount + 1 }
  else
    let decision := shouldProcessPR s.store.prs repository pr.number pr.state
      (pr.updated_at.getD pr.created_at)
    if decision.shouldProcess then
      let s1 :=
        if decision.reason = SyncReason.newPR then
          { s with newPRs := s.newPRs ++ [pr] }
        else if decision.reason = SyncReason.updatedOpenPR then
          { s with updatedPRs := s.updatedPRs ++ [pr] }
        else s
      let out := processPR aux repository now s1.store s1.result pr
      { s1 with
        store := out.1
        result := out.2
        processedCount := s1.processedCount + 1 }
    else s

/-- The page loop of `PRSyncService.fetchAndProcessIncremental`.  The feed
is the sequence of responses to successive `pulls.list` requests: a page of
items or a thrown fatal error.  A request beyond the supplied list returns
an empty page.  Breaks on an empty page or a page shorter than `perPage`;
a thrown page fetch aborts with the error. -/
def runPages (aux : RemoteAux) (repository : String) (lastSyncTime : Option Nat)
    (force : Bool) (now : Nat) (pageNum : Nat) :
    List (Except String (List RawPR)) → PipeState → PipeState × Option String
  | [], s =>
    ({ s with requests := s.requests ++ [⟨pageNum, lastSyncTime⟩] }, none)
  | response :: rest, s =>
    let s0 := { s with requests := s.requests ++ [⟨pageNum, lastSyncTime⟩] }
    match response with
    | .error e => (s0, some e)
    | .ok prs =>
      if prs.length = 0 then (s0, none)
      else
        let s1 := prs.foldl (processOnePR aux repository now force) s0
        let s2 := { s1 with events := s1.events ++ ["processing"] }
        if prs.length < perPage then (s2, none)
        else runPages aux repository lastSyncTime force now (pageNum + 1) rest s2

/-- `PRSyncService.fetchPRsIncremental`: resolve the sync state — under
`force` ignore the store (`lastSyncedPRNumber = 0`, `lastSyncTime = since`),
otherwise snapshot it from the store — then run the page loop.  (The
snapshotted `lastSyncedPRNumber` is only logged downstream; the snapshotted
`lastSyncTime` becomes the `since` parameter of every listing request.) -/
def fetchPRsIncremental (aux : RemoteAux) (repository : String) (store : Store)
    (since : Option Nat) (force : Bool) (now : Nat)
    (pages : List (Except String (List RawPR))) (res : SyncResult) :
    PipeState × Option String :=
  let lastSyncTime : Option Nat :=
    if force then since else getLastSyncTime store.prs repository
  runPages aux repository lastSyncTime force now 1 pages
    { store := store
      result := res
      newPRs := []
      updatedPRs := []
      requests := []
      events := []
      processedCount := 0 }

/-- The outcome of one `PRSyncService.syncRepository` call: the returned
result, the final store, the progress phases emitted (in order), the final
pipeline state, and the fatal error caught, if any. -/
structure SyncRun where
  result : SyncResult
  store : Store
  events : List String
  state : PipeState
  fatal : Option String
  deriving Repr

/-- `PRSyncService.syncRepository`: create the result, emit `fetching`, run
the incremental fetch-process loop; on success fill in the counters and
emit `storing`/`complete` (just `complete` when nothing was processed); on
a fatal page-fetch error push the single `(0, "Sync failed: …")` entry and
return without emitting further progress events. -/
def syncRepository (aux : RemoteAux) (repository : String) (store : Store)
    (since : Option Nat) (force : Bool) (now : Nat)
    (pages : List (Except String (List RawPR))) : SyncRun :=
  let res0 := initResult now
  let out := fetchPRsIncremental aux repository store since force now pages res0
  match out.2 with
  | some e =>
    { result := { out.1.result with
        errors := out.1.result.errors ++ [(0, "Sync failed: " ++ e)] }
      store := out.1.store
      events := "fetching" :: out.1.events
      state := out.1
      fatal := some e }
  | none =>
    let total := out.1.newPRs.length + out.1.updatedPRs.length
    let res := { out.1.result with
      totalPRs := total
      newPRs := out.1.newPRs.length
      updatedPRs := out.1.updatedPRs.length }
    if total = 0 then
      { result := res
        store := out.1.store
        events := "fetching" :: out.1.events ++ ["complete"]
        state := out.1
        fatal := none }
    else
      { result := res
        store := out.1.store
        events := "fetching" :: out.1.events ++ ["storing", "complete"]
        state := out.1
        fatal := none }

/-- The PRs the page loop consumes from a fault-free feed: whole pages up
to and including the first page shorter than `perPage`; an empty page
contributes nothing. -/
def consumedPRs : List (List RawPR) → List RawPR
  | [] => []
  | prs :: rest =>
    if prs.length = 0 then []
    else if prs.length < perPage then prs
    else prs ++ consumedPRs rest

/-! ## The orchestrator (`SyncOrchestrator.syncAll`) and workspace state -/

/-- A tracked repository of the workspace configuration
(`TrackedRepository` in `types/index.ts`), restricted to the fields
`updateRepositorySync` writes. -/
structure TrackedRepo where
  name : String
  lastSyncAt : Option Nat
  errors : List String
  deriving DecidableEq, Repr

/-- The last `n` elements of a list (`Array.slice(-n)` in the source). -/
def lastN (n : Nat) (l : List String) : List String :=
  l.drop (l.length - n)

/-- `WorkspaceManager.updateRepositorySync` (config.ts): set the named
repository's `lastSyncAt`; when any errors were reported, replace its
stored error list with the last five of them. -/
def updateRepositorySync (ws : List TrackedRepo) (name : String) (t : Nat)
    (errs : List String) : List TrackedRepo :=
  ws.map (fun r =>
    if r.name = name then
      { r with
        lastSyncAt := some t
        errors := if errs.isEmpty then r.errors else lastN 5 errs }
    else r)

/-- One row of `SyncAllResult.results`. -/
structure SyncAllEntry where
  repository : String
  success : Bool
  result : Option SyncResult
  error : Option String
  deriving DecidableEq, Repr

/-- `SyncAllResult` from `sync_orchestrator.ts`. -/
structure SyncAllResult where
  totalRepositories : Nat
  successfulSyncs : Nat
  failedSyncs : Nat
  results : List SyncAllEntry
  deriving DecidableEq, Repr

/-- One iteration of `SyncOrchestrator.syncAll`'s repository loop: the
pipeline's outcome for the repository (a returned result, or a thrown
error) is tallied, appended to `results`, and reported to the workspace
tracking state via `updateRepositorySync` — in the success branch with the
result's completion timestamp and error messages, in the failure branch
with the current time and the single error message. -/
def syncAllStep (now : Nat) (acc : SyncAllResult × List TrackedRepo)
    (item : String × Except String SyncResult) :
    SyncAllResult × List TrackedRepo :=
  match item.2 with
  | .ok r =>
    ({ acc.1 with
        successfulSyncs := acc.1.successfulSyncs + 1
        results := acc.1.results ++ [⟨item.1, true, some r, none⟩] },
     updateRepositorySync acc.2 item.1 r.lastSyncAt (r.errors.map (·.2)))
  | .error e =>
    ({ acc.1 with
        failedSyncs := acc.1.failedSyncs + 1
        results := acc.1.results ++ [⟨item.1, false, none, some e⟩] },
     updateRepositorySync acc.2 item.1 now [e])

/-- `SyncOrchestrator.syncAll`: iterate the repositories strictly in the
order given, one outcome per repository, starting from zero counters and
`totalRepositories` equal to the number of active repositories. -/
def syncAll (now : Nat) (ws : List TrackedRepo)
    (outcomes : List (String × Except String SyncResult)) :
    SyncAllResult × List TrackedRepo :=
  outcomes.foldl (syncAllStep now) (⟨outcomes.length, 0, 0, []⟩, ws)

/-- The workspace entry `updateRepositorySync` produces for tracked repo
`r` from one repository outcome. -/
def recordedUpdate (now : Nat) (r : TrackedRepo)
    (oc : Except String SyncResult) : TrackedRepo :=
  match oc with
  | .ok res =>
    { r with
      lastSyncAt := some res.lastSyncAt
      errors := if (res.errors.map (·.2)).isEmpty then r.errors
        else lastN 5 (res.errors.map (·.2)) }
  | .error e =>
    { r with lastSyncAt := some now, errors := lastN 5 [e] }

/-! ## Invariants and concrete inputs -/

/-- Referential integrity of the store: every review row references an
existing PR row via `(repository, pr_number)` — the foreign key of the
`reviews` table. -/
def noOrphans (st : Store) : Prop :=
  ∀ rv ∈ st.reviews, ∃ p ∈ st.prs,
    p.repository = rv.repository ∧ p.number = rv.pr_number

/-- An auxiliary client whose per-PR calls always succeed with empty
lists. -/
def okAux : RemoteAux := ⟨fun _ => .ok [], fun _ => .ok []⟩

/-- An auxiliary client whose changed-file fetch always throws. -/
def failFilesAux : RemoteAux := ⟨fun _ => .error "boom", fun _ => .ok []⟩

/-- A stored PR row: `o/r#100`, merged long ago, synced at time 50. -/
def demoStoredPR : PullRequest :=
  ⟨100, "o/r", "alice", "t0", 10, none, 0, 0, 0, false, 50⟩

/-- Feed candidate `o/r#105`, open, updated at time 60. -/
def demoCand105 : RawPR :=
  ⟨105, "open", "t105", some "alice", 20, some 60, none, some 1, some 1, some 1⟩

/-- Feed candidate `o/r#99`, open, updated at time 60 (after the stored
last sync time 50). -/
def demoCand99 : RawPR :=
  ⟨99, "open", "t99", some "bob", 5, some 60, none, some 1, some 1, some 1⟩

/-- Feed candidate `o/r#7`, open. -/
def demoCand7 : RawPR :=
  ⟨7, "open", "t7", some "carol", 3, some 4, none, some 1, some 1, some 1⟩

/-- A non-force sync at time 100 of a repository storing `#100`, whose feed
returns one page `[#105, #99]`. -/
def demoRun : SyncRun :=
  syncRepository okAux "o/r" ⟨[demoStoredPR], []⟩ none false 100
    [.ok [demoCand105, demoCand99]]

/-- A sync of an empty store whose feed returns one page `[#7]` and whose
changed-file fetch throws for every PR. -/
def demoFileFailRun : SyncRun :=
  syncRepository failFilesAux "o/r" ⟨[], []⟩ none false 100 [.ok [demoCand7]]

/-- A sync whose very first page fetch throws fatally. -/
def demoFatalRun : SyncRun :=
  syncRepository okAux "o/r" ⟨[], []⟩ none false 100 [.error "boom"]

/-- A candidate PR with a given number, used to build feeds where only the
page sizes matter. -/
def mkCand (n : Nat) : RawPR :=
  ⟨n, "open", "t", some "a", 0, some 0, none, some 0, some 0, some 0⟩

/-- A feed of three pages of sizes 100, 100 and 37. -/
def pages3 : List (List RawPR) :=
  [(List.range 100).map mkCand, (List.range 100).map mkCand,
    (List.range 37).map mkCand]

end Digest

namespace Digest

/-- C1: for every candidate PR and resolved sync state, the code's
classification agrees with the spec's decision table, the function is total
(it always returns one of the four decisions, being a total function into
`SyncDecision`), and the `shouldProcess` flag is set exactly on the two
fetching decisions `New` and `UpdatedOpen`. -/
theorem classify_follows_spec_table (lastN : Nat) (lastT : Option Nat)
    (n : Nat) (st : String) (t : Nat) :
    decisionOfReason (shouldProcessPRResolved lastN lastT n st t).reason =
      specClassify n st t lastN lastT ∧
    ((shouldProcessPRResolved lastN lastT n st t).shouldProcess = true ↔
      ((specClassify n st t lastN lastT) = .New ∨
        (specClassify n st t lastN lastT) = .UpdatedOpen)) := by
  unfold shouldProcessPRResolved specClassify
  split_ifs with h1 h2 h3 h4 <;>
    first
      | (refine ⟨rfl, by simp [decisionOfReason]⟩)
      | omega

/-! ## Keyed upserts (C6) -/

theorem prSameKey_refl (pr : PullRequest) : prSameKey pr pr = true := by
  simp [prSameKey]

theorem reviewSameKey_refl (r : Review) : reviewSameKey r r = true := by
  simp [reviewSameKey]

theorem filterKey_addPR (s : List PullRequest) (pr : PullRequest) :
    (addPR s pr).filter (fun p => prSameKey p pr) = [pr] := by
  unfold addPR
  rw [List.filter_cons_of_pos (by simp [prSameKey])]
  rw [List.filter_filter]
  simp

theorem filterNotKey_addPR (s : List PullRequest) (pr : PullRequest) :
    (addPR s pr).filter (fun p => !prSameKey p pr) =
      s.filter (fun p => !prSameKey p pr) := by
  unfold addPR
  rw [List.filter_cons_of_neg (by simp [prSameKey])]
  rw [List.filter_filter]
  simp

theorem filterKey_addReview (rs : List Review) (r : Review) :
    (addReview rs r).filter (fun q => reviewSameKey q r) = [r] := by
  unfold addReview
  rw [List.filter_cons_of_pos (by simp [reviewSameKey])]
  rw [List.filter_filter]
  simp

theorem filterNotKey_addReview (rs : List Review) (r : Review) :
    (addReview rs r).filter (fun q => !reviewSameKey q r) =
      rs.filter (fun q => !reviewSameKey q r) := by
  unfold addReview
  rw [List.filter_cons_of_neg (by simp [reviewSameKey])]
  rw [List.filter_filter]
  simp

/-- C6: upserts are idempotent last-write-wins keyed writes.  Upserting the
same `PullRequestRecord` twice leaves exactly one row for its
`(repository, number)` key, equal to the record with no field-level merge
(indeed a single upsert already does, so a second application changes
nothing); rows under other keys are untouched; and likewise a reviewer's
latest review replaces any prior row for the same
`(repository, pr_number, reviewer)` key, so the store never holds more than
one row per natural key. -/
theorem upsert_last_write_wins (s : List PullRequest) (pr : PullRequest)
    (rs : List Review) (r : Review) :
    (addPR (addPR s pr) pr).filter (fun p => prSameKey p pr) = [pr] ∧
    (addPR s pr).filter (fun p => prSameKey p pr) = [pr] ∧
    (addPR s pr).filter (fun p => !prSameKey p pr) =
      s.filter (fun p => !prSameKey p pr) ∧
    (addReview (addReview rs r) r).filter (fun q => reviewSameKey q r) = [r] ∧
    (addReview rs r).filter (fun q => reviewSameKey q r) = [r] ∧
    (addReview rs r).filter (fun q => !reviewSameKey q r) =
      rs.filter (fun q => !reviewSameKey q r) :=
  ⟨filterKey_addPR _ _, filterKey_addPR _ _, filterNotKey_addPR _ _,
    filterKey_addReview _ _, filterKey_addReview _ _,
    filterNotKey_addReview _ _⟩

end Digest

namespace Digest

/-! ## Pipeline bookkeeping lemmas -/

theorem processReviewStep_proj (repository : String) (now prNumber : Nat)
    (acc : Store × SyncResult) (rv : RawReview) :
    (processReviewStep repository now prNumber acc rv).1.prs = acc.1.prs ∧
    resView (processReviewStep repository now prNumber acc rv).2 = resView acc.2 := by
  rcases rv with ⟨u, s, t⟩
  cases u <;> cases s <;> cases t <;> simp [processReviewStep, resView]

theorem foldl_processReviewStep_proj (repository : String) (now prNumber : Nat) :
    ∀ (l : List RawReview) (acc : Store × SyncResult),
    (l.foldl (processReviewStep repository now prNumber) acc).1.prs = acc.1.prs ∧
    resView (l.foldl (processReviewStep repository now prNumber) acc).2 =
      resView acc.2 := by
  intro l
  induction l with
  | nil => intro acc; exact ⟨rfl, rfl⟩
  | cons rv rest ih =>
    intro acc
    have h := processReviewStep_proj repository now prNumber acc rv
    have h' := ih (processReviewStep repository now prNumber acc rv)
    exact ⟨h'.1.trans h.1, h'.2.trans h.2⟩

theorem foldl_processReviewStep_snd (repository : String) (now prNumber : Nat) :
    ∀ (l : List RawReview) (a b : Store × SyncResult), a.2 = b.2 →
    (l.foldl (processReviewStep repository now prNumber) a).2 =
      (l.foldl (processReviewStep repository now prNumber) b).2 := by
  intro l
  induction l with
  | nil => intro a b h; exact h
  | cons rv rest ih =>
    intro a b h
    apply ih
    rcases rv with ⟨u, s, t⟩
    cases u <;> cases s <;> cases t <;> simp [processReviewStep, h]

theorem processPR_prs (aux : RemoteAux) (repository : String) (now : Nat)
    (st : Store) (res : SyncResult) (pr : RawPR) :
    (processPR aux repository now st res pr).1.prs =
      addPR st.prs (buildPRRecord repository now pr
        (detectTests (fetchPRFiles aux pr.number))) := by
  unfold processPR
  exact (foldl_processReviewStep_proj _ _ _ _ _).1

theorem processPR_resView (aux : RemoteAux) (repository : String) (now : Nat)
    (st : Store) (res : SyncResult) (pr : RawPR) :
    resView (processPR aux repository now st res pr).2 = resView res := by
  unfold processPR
  exact (foldl_processReviewStep_proj _ _ _ _ _).2

theorem processPR_snd_store_indep (aux : RemoteAux) (repository : String)
    (now : Nat) (st st' : Store) (res : SyncResult) (pr : RawPR) :
    (processPR aux repository now st res pr).2 =
      (processPR aux repository now st' res pr).2 := by
  unfold processPR
  exact foldl_processReviewStep_snd _ _ _ _ _ _ rfl

end Digest

namespace Digest

theorem processOnePR_proj (aux : RemoteAux) (repository : String) (now : Nat)
    (force : Bool) (s : PipeState) (pr : RawPR) :
    (processOnePR aux repository now force s pr).requests = s.requests ∧
    (processOnePR aux repository now force s pr).events = s.events ∧
    (processOnePR aux repository now force s pr).result.errors = s.result.errors := by
  have herr : ∀ (st : Store) (res : SyncResult),
      (processPR aux repository now st res pr).2.errors = res.errors := by
    intro st res
    have h := processPR_resView aux repository now st res pr
    simpa [resView] using congrArg (fun v => v.2.2.2.1) h
  unfold processOnePR
  dsimp only
  split_ifs <;> simp [herr]

theorem foldl_processOnePR_proj (aux : RemoteAux) (repository : String)
    (now : Nat) (force : Bool) :
    ∀ (prs : List RawPR) (s : PipeState),
    (prs.foldl (processOnePR aux repository now force) s).requests = s.requests ∧
    (prs.foldl (processOnePR aux repository now force) s).events = s.events ∧
    (prs.foldl (processOnePR aux repository now force) s).result.errors =
      s.result.errors := by
  intro prs
  induction prs with
  | nil => intro s; exact ⟨rfl, rfl, rfl⟩
  | cons pr rest ih =>
    intro s
    have h := processOnePR_proj aux repository now force s pr
    have h' := ih (processOnePR aux repository now force s pr)
    exact ⟨h'.1.trans h.1, h'.2.1.trans h.2.1, h'.2.2.trans h.2.2⟩

theorem runPages_proj (aux : RemoteAux) (repository : String)
    (lastT : Option Nat) (force : Bool) (now : Nat) :
    ∀ (pages : List (Except String (List RawPR))) (pageNum : Nat) (s : PipeState),
    (∃ k, (runPages aux repository lastT force now pageNum pages s).1.requests
        = s.requests ++ (List.range' pageNum k).map
            (fun i => (⟨i, lastT⟩ : FetchRequest))) ∧
    (runPages aux repository lastT force now pageNum pages s).1.result.errors =
      s.result.errors ∧
    (∃ m, (runPages aux repository lastT force now pageNum pages s).1.events =
      s.events ++ List.replicate m "processing") := by
  intro pages
  induction pages with
  | nil =>
    intro pageNum s
    refine ⟨⟨1, ?_⟩, rfl, ⟨0, by simp [runPages]⟩⟩
    simp [runPages, List.range']
  | cons response rest ih =>
    intro pageNum s
    match response with
    | .error e =>
      refine ⟨⟨1, ?_⟩, rfl, ⟨0, by simp [runPages]⟩⟩
      simp [runPages, List.range']
    | .ok prs =>
      by_cases h0 : prs.length = 0
      · refine ⟨⟨1, ?_⟩, ?_, ⟨0, ?_⟩⟩ <;> simp [runPages, h0, List.range']
      · set s0 : PipeState :=
          { s with requests := s.requests ++ [⟨pageNum, lastT⟩] } with hs0
        have hfold := foldl_processOnePR_proj aux repository now force prs s0
        set s1 := prs.foldl (processOnePR aux repository now force) s0 with hs1
        set s2 : PipeState := { s1 with events := s1.events ++ ["processing"] }
          with hs2
        by_cases hshort : prs.length < perPage
        · have hrun : (runPages aux repository lastT force now pageNum
              (.ok prs :: rest) s) = (s2, none) := by
            simp [runPages, h0, hshort, hs0, hs1, hs2]
          refine ⟨⟨1, ?_⟩, ?_, ⟨1, ?_⟩⟩ <;>
            simp [hrun, hs2, hfold.1, hfold.2.1, hfold.2.2, List.range']
        · have hrun : (runPages aux repository lastT force now pageNum
              (.ok prs :: rest) s) =
              runPages aux repository lastT force now (pageNum + 1) rest s2 := by
            simp [runPages, h0, hshort, hs0, hs1, hs2]
          obtain ⟨⟨k, hk⟩, herr, ⟨m, hm⟩⟩ := ih (pageNum + 1) s2
          refine ⟨⟨k + 1, ?_⟩, ?_, ⟨m + 1, ?_⟩⟩
          · rw [hrun, hk]
            simp [hs2, hfold.1, hs0, List.range'_succ]
          · rw [hrun, herr]
            simp [hs2, hfold.2.2, hs0]
          · rw [hrun, hm]
            simp [hs2, hfold.2.1, hs0, List.replicate_succ]

end Digest

namespace Digest

theorem runPages_ok_request_count (aux : RemoteAux) (repository : String)
    (lastT : Option Nat) (force : Bool) (now : Nat) :
    ∀ (pages : List (List RawPR)) (pageNum : Nat) (s : PipeState),
    ((runPages aux repository lastT force now pageNum
        (pages.map Except.ok) s).1.requests).length =
      s.requests.length +
        ((pages.takeWhile fun p => decide (perPage ≤ p.length)).length + 1) := by
  intro pages
  induction pages with
  | nil =>
    intro pageNum s
    simp [runPages]
  | cons prs rest ih =>
    intro pageNum s
    by_cases h0 : prs.length = 0
    · have : ¬ (perPage ≤ prs.length) := by simp [h0, perPage]
      simp [runPages, h0, List.takeWhile, this, perPage]
    · by_cases hshort : prs.length < perPage
      · have hnot : ¬ (perPage ≤ prs.length) := by omega
        have hfold := foldl_processOnePR_proj aux repository now force prs
          { s with requests := s.requests ++ [⟨pageNum, lastT⟩] }
        simp [runPages, h0, hshort, List.takeWhile, hnot, hfold.1]
      · have hge : perPage ≤ prs.length := by omega
        have hfold := foldl_processOnePR_proj aux repository now force prs
          { s with requests := s.requests ++ [⟨pageNum, lastT⟩] }
        rw [List.map_cons]
        simp only [runPages, h0, hshort, if_false, ite_false, if_neg h0]
        rw [ih]
        simp [List.takeWhile, hge, hfold.1]
        omega

theorem runPages_ok_no_fatal (aux : RemoteAux) (repository : String)
    (lastT : Option Nat) (force : Bool) (now : Nat) :
    ∀ (pages : List (List RawPR)) (pageNum : Nat) (s : PipeState),
    (runPages aux repository lastT force now pageNum
      (pages.map Except.ok) s).2 = none := by
  intro pages
  induction pages with
  | nil => intro pageNum s; simp [runPages]
  | cons prs rest ih =>
    intro pageNum s
    by_cases h0 : prs.length = 0
    · simp [runPages, h0]
    · by_cases hshort : prs.length < perPage
      · simp [runPages, h0, hshort]
      · simp only [runPages, List.map_cons, if_neg h0, if_neg hshort]
        exact ih (pageNum + 1) _

theorem runPages_fatal_source (aux : RemoteAux) (repository : String)
    (lastT : Option Nat) (force : Bool) (now : Nat) (e : String) :
    ∀ (pages : List (Except String (List RawPR))) (pageNum : Nat) (s : PipeState),
    (runPages aux repository lastT force now pageNum pages s).2 = some e →
    ∃ j, pages.get? j = some (.error e) ∧
      (runPages aux repository lastT force now pageNum pages s).1.requests.length
        = s.requests.length + j + 1 := by
  intro pages
  induction pages with
  | nil => intro pageNum s h; simp [runPages] at h
  | cons response rest ih =>
    intro pageNum s h
    match hresp : response with
    | .error e' =>
      refine ⟨0, ?_, ?_⟩
      · subst hresp
        simp [runPages] at h
        simp [h]
      · subst hresp
        simp [runPages] at h ⊢
    | .ok prs =>
      subst hresp
      by_cases h0 : prs.length = 0
      · simp [runPages, h0] at h
      · by_cases hshort : prs.length < perPage
        · simp [runPages, h0, hshort] at h
        · simp only [runPages, if_neg h0, if_neg hshort] at h ⊢
          obtain ⟨j, hj, hlen⟩ := ih (pageNum + 1) _ h
          refine ⟨j + 1, by simpa using hj, ?_⟩
          rw [hlen]
          have hfold := foldl_processOnePR_proj aux repository now force prs
            { s with requests := s.requests ++ [⟨pageNum, lastT⟩] }
          simp [hfold.1]
          omega

end Digest

namespace Digest

theorem syncRepository_state (aux : RemoteAux) (repository : String)
    (store : Store) (since : Option Nat) (force : Bool) (now : Nat)
    (pages : List (Except String (List RawPR))) :
    (syncRepository aux repository store since force now pages).state =
      (fetchPRsIncremental aux repository store since force now pages
        (initResult now)).1 := by
  unfold syncRepository
  dsimp only
  split <;> (try split) <;> rfl

theorem syncRepository_store (aux : RemoteAux) (repository : String)
    (store : Store) (since : Option Nat) (force : Bool) (now : Nat)
    (pages : List (Except String (List RawPR))) :
    (syncRepository aux repository store since force now pages).store =
      (fetchPRsIncremental aux repository store since force now pages
        (initResult now)).1.store := by
  unfold syncRepository
  dsimp only
  split <;> (try split) <;> rfl

/-- C3: pagination terminates exactly at the first page with zero items or
strictly fewer items than the fixed page size 100 — for any feed of pages
and any pipeline configuration, the number of listing requests is one more
than the length of the feed's prefix of full pages (so nothing else — not
classification, not the store — ever terminates or extends paging); in
particular a feed with pages of sizes `[100, 100, 37]` is consumed in
exactly 3 page fetches. -/
theorem pagination_terminates_on_short_page :
    (∀ (aux : RemoteAux) (repository : String) (lastT : Option Nat)
        (force : Bool) (now : Nat) (pageNum : Nat)
        (pages : List (List RawPR)) (s : PipeState),
      ((runPages aux repository lastT force now pageNum
          (pages.map Except.ok) s).1.requests).length =
        s.requests.length +
          ((pages.takeWhile fun p => decide (perPage ≤ p.length)).length + 1)) ∧
    (∀ (aux : RemoteAux) (force : Bool) (now : Nat) (since : Option Nat)
        (store : Store),
      ((syncRepository aux "o/r" store since force now
        (pages3.map Except.ok)).state.requests).length = 3) := by
  constructor
  · intro aux repository lastT force now pageNum pages s
    exact runPages_ok_request_count aux repository lastT force now pages pageNum s
  · intro aux force now since store
    rw [syncRepository_state]
    unfold fetchPRsIncremental
    dsimp only
    rw [runPages_ok_request_count]
    simp [pages3, perPage, List.takeWhile]

end Digest

namespace Digest

/-! ## Force-mode lemmas (C4) -/

theorem processOnePR_force_view (aux : RemoteAux) (repository : String)
    (now : Nat) (s s' : PipeState) (pr : RawPR)
    (h : pipeView s = pipeView s') :
    pipeView (processOnePR aux repository now true s pr) =
      pipeView (processOnePR aux repository now true s' pr) := by
  simp only [pipeView, Prod.mk.injEq] at h
  obtain ⟨h1, h2, h3, h4, h5, h6⟩ := h
  have hres : (processPR aux repository now s.store s.result pr).2
      = (processPR aux repository now s'.store s'.result pr).2 := by
    rw [h1]
    exact processPR_snd_store_indep aux repository now s.store s'.store
      s'.result pr
  unfold processOnePR
  simp [pipeView, h1, h2, h3, h4, h5, h6, hres]
  exact processPR_snd_store_indep aux repository now s.store s'.store
    s'.result pr

theorem foldl_processOnePR_force_view (aux : RemoteAux) (repository : String)
    (now : Nat) :
    ∀ (prs : List RawPR) (s s' : PipeState), pipeView s = pipeView s' →
    pipeView (prs.foldl (processOnePR aux repository now true) s) =
      pipeView (prs.foldl (processOnePR aux repository now true) s') := by
  intro prs
  induction prs with
  | nil => intro s s' h; exact h
  | cons pr rest ih =>
    intro s s' h
    exact ih _ _ (processOnePR_force_view aux repository now s s' pr h)

theorem foldl_processOnePR_force_lists (aux : RemoteAux) (repository : String)
    (now : Nat) :
    ∀ (prs : List RawPR) (s : PipeState),
    (prs.foldl (processOnePR aux repository now true) s).newPRs =
      s.newPRs ++ prs ∧
    (prs.foldl (processOnePR aux repository now true) s).updatedPRs =
      s.updatedPRs := by
  intro prs
  induction prs with
  | nil => intro s; simp
  | cons pr rest ih =>
    intro s
    have step : (processOnePR aux repository now true s pr).newPRs =
        s.newPRs ++ [pr] ∧
        (processOnePR aux repository now true s pr).updatedPRs =
          s.updatedPRs := by
      unfold processOnePR
      simp
    have h := ih (processOnePR aux repository now true s pr)
    refine ⟨?_, ?_⟩
    · rw [List.foldl_cons, h.1, step.1]
      simp
    · rw [List.foldl_cons, h.2, step.2]

theorem runPages_force_view (aux : RemoteAux) (repository : String)
    (lastT : Option Nat) (now : Nat) :
    ∀ (pages : List (Except String (List RawPR))) (pageNum : Nat)
      (s s' : PipeState), pipeView s = pipeView s' →
    pipeView (runPages aux repository lastT true now pageNum pages s).1 =
      pipeView (runPages aux repository lastT true now pageNum pages s').1 ∧
    (runPages aux repository lastT true now pageNum pages s).2 =
      (runPages aux repository lastT true now pageNum pages s').2 := by
  intro pages
  induction pages with
  | nil =>
    intro pageNum s s' h
    simp only [pipeView, Prod.mk.injEq] at h
    obtain ⟨h1, h2, h3, h4, h5, h6⟩ := h
    constructor
    · simp [runPages, pipeView, h1, h2, h3, h4, h5, h6]
    · simp [runPages]
  | cons response rest ih =>
    intro pageNum s s' h
    have hview := h
    simp only [pipeView, Prod.mk.injEq] at h
    obtain ⟨h1, h2, h3, h4, h5, h6⟩ := h
    match response with
    | .error e =>
      constructor
      · simp [runPages, pipeView, h1, h2, h3, h4, h5, h6]
      · simp [runPages]
    | .ok prs =>
      by_cases h0 : prs.length = 0
      · constructor
        · simp [runPages, h0, pipeView, h1, h2, h3, h4, h5, h6]
        · simp [runPages, h0]
      · have hs0 : pipeView { s with requests := s.requests ++ [⟨pageNum, lastT⟩] }
            = pipeView { s' with requests := s'.requests ++ [⟨pageNum, lastT⟩] } := by
          simp [pipeView, h1, h2, h3, h4, h5, h6]
        have hfold := foldl_processOnePR_force_view aux repository now prs _ _ hs0
        have hf := hfold
        simp only [pipeView, Prod.mk.injEq] at hf
        obtain ⟨g1, g2, g3, g4, g5, g6⟩ := hf
        by_cases hshort : prs.length < perPage
        · constructor
          · simp [runPages, h0, hshort, pipeView, g1, g2, g3, g4, g5, g6]
          · simp [runPages, h0, hshort]
        · have hs2 : pipeView { prs.foldl (processOnePR aux repository now true)
                { s with requests := s.requests ++ [⟨pageNum, lastT⟩] } with
                events := (prs.foldl (processOnePR aux repository now true)
                  { s with requests := s.requests ++ [⟨pageNum, lastT⟩] }).events
                    ++ ["processing"] }
              = pipeView { prs.foldl (processOnePR aux repository now true)
                { s' with requests := s'.requests ++ [⟨pageNum, lastT⟩] } with
                events := (prs.foldl (processOnePR aux repository now true)
                  { s' with requests := s'.requests ++ [⟨pageNum, lastT⟩] }).events
                    ++ ["processing"] } := by
            simp [pipeView, g1, g2, g3, g4, g5, g6]
          have := ih (pageNum + 1) _ _ hs2
          constructor
          · simpa [runPages, h0, hshort] using this.1
          · simpa [runPages, h0, hshort] using this.2

end Digest

namespace Digest

theorem runPages_force_lists (aux : RemoteAux) (repository : String)
    (lastT : Option Nat) (now : Nat) :
    ∀ (pages : List (List RawPR)) (pageNum : Nat) (s : PipeState),
    (runPages aux repository lastT true now pageNum
        (pages.map Except.ok) s).1.newPRs = s.newPRs ++ consumedPRs pages ∧
    (runPages aux repository lastT true now pageNum
        (pages.map Except.ok) s).1.updatedPRs = s.updatedPRs := by
  intro pages
  induction pages with
  | nil => intro pageNum s; simp [runPages, consumedPRs]
  | cons prs rest ih =>
    intro pageNum s
    by_cases h0 : prs.length = 0
    · simp [runPages, consumedPRs, h0]
    · have hfold := foldl_processOnePR_force_lists aux repository now prs
        { s with requests := s.requests ++ [⟨pageNum, lastT⟩] }
      by_cases hshort : prs.length < perPage
      · simp [runPages, consumedPRs, h0, hshort, hfold.1, hfold.2]
      · have h := ih (pageNum + 1)
          { prs.foldl (processOnePR aux repository now true)
              { s with requests := s.requests ++ [⟨pageNum, lastT⟩] } with
            events := (prs.foldl (processOnePR aux repository now true)
              { s with requests := s.requests ++ [⟨pageNum, lastT⟩] }).events
                ++ ["processing"] }
      
        constructor
        · simp only [runPages, List.map_cons, if_neg h0, if_neg hshort]
          rw [h.1]
          simp [hfold.1, consumedPRs, h0, hshort]
        · simp only [runPages, List.map_cons, if_neg h0, if_neg hshort]
          rw [h.2]
          simp [hfold.2]

theorem fetchPRsIncremental_force_view (aux : RemoteAux) (repository : String)
    (store store' : Store) (since : Option Nat) (now : Nat)
    (pages : List (Except String (List RawPR))) (res : SyncResult) :
    pipeView (fetchPRsIncremental aux repository store since true now
        pages res).1 =
      pipeView (fetchPRsIncremental aux repository store' since true now
        pages res).1 ∧
    (fetchPRsIncremental aux repository store since true now pages res).2 =
      (fetchPRsIncremental aux repository store' since true now pages res).2 := by
  unfold fetchPRsIncremental
  simp only [if_true]
  exact runPages_force_view aux repository since now pages 1 _ _
    (by simp [pipeView])

/-- C4: with `force = true` the classifier is never invoked and the prior
entity-store state is never consulted: every projection of the run other
than the persisted store — the returned result, the emitted progress
events, the fatal outcome, the categorised PR lists, the issued requests —
is identical for any two prior stores; every PR the feed returns is
treated as `New` (`newPRs` is exactly the consumed feed, `updatedPRs`
stays empty); and the only cutoff constraining the listing requests is the
explicit `since` option, which every issued request carries verbatim. -/
theorem force_mode_bypasses_classifier (aux : RemoteAux) (repository : String)
    (store store' : Store) (since : Option Nat) (now : Nat)
    (pages : List (Except String (List RawPR)))
    (pagesOk : List (List RawPR)) :
    ((syncRepository aux repository store since true now pages).result =
        (syncRepository aux repository store' since true now pages).result ∧
      (syncRepository aux repository store since true now pages).events =
        (syncRepository aux repository store' since true now pages).events ∧
      (syncRepository aux repository store since true now pages).fatal =
        (syncRepository aux repository store' since true now pages).fatal ∧
      pipeView (syncRepository aux repository store since true now pages).state =
        pipeView (syncRepository aux repository store' since true now
          pages).state) ∧
    ((syncRepository aux repository store since true now
        (pagesOk.map Except.ok)).state.newPRs = consumedPRs pagesOk ∧
      (syncRepository aux repository store since true now
        (pagesOk.map Except.ok)).state.updatedPRs = []) ∧
    (∀ q ∈ (syncRepository aux repository store since true now
        pages).state.requests, q.since = since) := by
  have hview := fetchPRsIncremental_force_view aux repository store store'
    since now pages (initResult now)
  have hcomp := hview.1
  simp only [pipeView, Prod.mk.injEq] at hcomp
  obtain ⟨g1, g2, g3, g4, g5, g6⟩ := hcomp
  refine ⟨?_, ?_, ?_⟩
  · unfold syncRepository
    dsimp only
    rw [← hview.2]
    rcases hsnd : (fetchPRsIncremental aux repository store since true now
        pages (initResult now)).2 with _ | e
    · simp only [g1, g2, g3, g5]
      refine ⟨?_, ?_, ?_, ?_⟩
      · split <;> rfl
      · split <;> rfl
      · split <;> rfl
      · split <;> exact hview.1
    · simp [pipeView, g1, g2, g3, g4, g5, g6]
  · rw [syncRepository_state]
    unfold fetchPRsIncremental
    simp only [if_true]
    have h := runPages_force_lists aux repository since now pagesOk 1
      { store := store
        result := initResult now
        newPRs := []
        updatedPRs := []
        requests := []
        events := []
        processedCount := 0 }
    simpa using h
  · intro q hq
    rw [syncRepository_state] at hq
    unfold fetchPRsIncremental at hq
    simp only [if_true] at hq
    obtain ⟨⟨k, hk⟩, -, -⟩ := runPages_proj aux repository since true now
      pages 1
      { store := store
        result := initResult now
        newPRs := []
        updatedPRs := []
        requests := []
        events := []
        processedCount := 0 }
    rw [hk] at hq
    simp at hq
    obtain ⟨i, -, hi⟩ := hq
    rw [← hi]

end Digest

namespace Digest

/-- C5: the sync state used for classification is NOT the snapshot taken at
the start of the attempt — `shouldProcessPR` re-resolves it from the store
for every candidate, so classification observes the attempt's own partial
writes.  Concretely: with stored PR `#100` (synced at 50) and a feed page
`[#105, #99]` (both open, both updated at 60) synced at time 100, the
start-of-attempt snapshot `(lastSyncedPRNumber = 100, lastSyncTime = 50)`
classifies `#99` as an updated open PR to process — but after `#105` is
processed and written, the re-resolved state is `(105, 100)`, so the
pipeline classifies `#99` as already-synced and drops it: `updatedPRs`
stays empty and no row for `#99` is ever stored (and since the stored
last-sync time has advanced past 60, no later sync will pick it up
either). -/
theorem classification_observes_own_writes :
    shouldProcessPRResolved (getLastSyncedPRNumber [demoStoredPR] "o/r")
      (getLastSyncTime [demoStoredPR] "o/r") 99 "open" 60 =
        ⟨true, .updatedOpenPR⟩ ∧
    demoRun.state.updatedPRs = [] ∧
    demoRun.result.updatedPRs = 0 ∧
    demoRun.store.prs.filter (fun p => p.number == 99) = [] ∧
    demoRun.store.prs.filter (fun p => p.number == 105) =
      [buildPRRecord "o/r" 100 demoCand105 false] := by
  refine ⟨by decide, ?_, ?_, ?_, ?_⟩ <;> decide

end Digest

namespace Digest

theorem syncRepository_fatal (aux : RemoteAux) (repository : String)
    (store : Store) (since : Option Nat) (force : Bool) (now : Nat)
    (pages : List (Except String (List RawPR))) :
    (syncRepository aux repository store since force now pages).fatal =
      (fetchPRsIncremental aux repository store since force now pages
        (initResult now)).2 := by
  unfold syncRepository
  dsimp only
  split <;> (try split) <;> simp_all

theorem fetchPRsIncremental_eq (aux : RemoteAux) (repository : String)
    (store : Store) (since : Option Nat) (force : Bool) (now : Nat)
    (pages : List (Except String (List RawPR))) (res : SyncResult) :
    fetchPRsIncremental aux repository store since force now pages res =
      runPages aux repository
        (if force then since else getLastSyncTime store.prs repository)
        force now 1 pages
        { store := store
          result := res
          newPRs := []
          updatedPRs := []
          requests := []
          events := []
          processedCount := 0 } := rfl

/-- C7 counterexample: on a run whose very first page fetch throws, the
code does record the single error entry and returns — but it does NOT emit
a final `complete` progress event (the only event emitted is `fetching`),
so the claim as stated is false at this input. -/
theorem fatal_error_no_complete_event_cex :
    demoFatalRun.result.errors = [(0, "Sync failed: boom")] ∧
    demoFatalRun.events = ["fetching"] ∧
    ("complete" ∈ demoFatalRun.events → False) := by
  refine ⟨by decide, by decide, by decide⟩

/-- C7 (amended): on a page-fetch-level fatal error the pipeline aborts the
remainder of the repository's sync (the failing fetch is the last request
issued, and every page was requested at most once — page numbers are the
strictly increasing sequence 1, 2, …, so nothing is retried), records the
failure as the single error entry `(0, "Sync failed: …")`, and returns the
result — but it does NOT emit a final `complete` progress event: after the
initial `fetching` phase only `processing` events have been emitted. -/
theorem fatal_error_aborts_and_records (aux : RemoteAux) (repository : String)
    (store : Store) (since : Option Nat) (force : Bool) (now : Nat)
    (pages : List (Except String (List RawPR))) (e : String)
    (h : (syncRepository aux repository store since force now pages).fatal =
      some e) :
    (syncRepository aux repository store since force now pages).result.errors =
      [(0, "Sync failed: " ++ e)] ∧
    "complete" ∉ (syncRepository aux repository store since force now
      pages).events ∧
    (syncRepository aux repository store since force now pages).events.head? =
      some "fetching" ∧
    (∃ j, pages.get? j = some (.error e) ∧
      (syncRepository aux repository store since force now
        pages).state.requests.length = j + 1) ∧
    (syncRepository aux repository store since force now
        pages).state.requests.map (fun q => q.page) =
      List.range' 1 (syncRepository aux repository store since force now
        pages).state.requests.length := by
  have hfe : (fetchPRsIncremental aux repository store since force now pages
      (initResult now)).2 = some e := by
    have hs := syncRepository_fatal aux repository store since force now pages
    rw [hs] at h
    exact h
  have hstruct :
      (syncRepository aux repository store since force now pages).result =
        { (fetchPRsIncremental aux repository store since force now pages
            (initResult now)).1.result with
          errors := (fetchPRsIncremental aux repository store since force now
            pages (initResult now)).1.result.errors ++
              [(0, "Sync failed: " ++ e)] } ∧
      (syncRepository aux repository store since force now pages).events =
        "fetching" :: (fetchPRsIncremental aux repository store since force
          now pages (initResult now)).1.events := by
    unfold syncRepository
    dsimp only
    rw [hfe]
    exact ⟨rfl, rfl⟩
  obtain ⟨⟨k, hk⟩, herr, ⟨m, hm⟩⟩ := runPages_proj aux repository
    (if force then since else getLastSyncTime store.prs repository)
    force now pages 1
    { store := store
      result := initResult now
      newPRs := []
      updatedPRs := []
      requests := []
      events := []
      processedCount := 0 }
  rw [fetchPRsIncremental_eq] at hstruct hfe
  refine ⟨?_, ?_, ?_, ?_, ?_⟩
  · rw [hstruct.1]
    rw [herr]
    simp [initResult]
  · rw [hstruct.2, hm]
    simp [List.mem_replicate]
  · rw [hstruct.2]
    rfl
  · obtain ⟨j, hj, hlen⟩ := runPages_fatal_source aux repository
      (if force then since else getLastSyncTime store.prs repository)
      force now e pages 1 _ hfe
    refine ⟨j, hj, ?_⟩
    rw [syncRepository_state, fetchPRsIncremental_eq]
    rw [hlen]
    simp
  · rw [syncRepository_state, fetchPRsIncremental_eq, hk]
    simp only [List.nil_append, List.map_map, List.length_map]
    have hcomp : ((fun q : FetchRequest => q.page) ∘ fun i =>
        ({ page := i
           since := if force = true then since
             else getLastSyncTime store.prs repository } : FetchRequest)) =
        fun i => i := rfl
    rw [hcomp]
    simp

/-- Witness for C7's amended theorem at the concrete fatal run. -/
theorem fatal_error_aborts_and_records_witness :
    demoFatalRun.fatal = some "boom" ∧
    demoFatalRun.result.errors = [(0, "Sync failed: boom")] ∧
    "complete" ∉ demoFatalRun.events := by
  have h : demoFatalRun.fatal = some "boom" := by decide
  have hmain := fatal_error_aborts_and_records okAux "o/r" ⟨[], []⟩ none false
    100 [.error "boom"] "boom" h
  exact ⟨h, hmain.1, hmain.2.1⟩

end Digest

namespace Digest

/-- C2 counterexample: when the changed-file fetch for PR `#7` throws, the
pipeline still upserts the PR with `has_tests = false` and finishes
normally — but NO `(pr_number, message)` entry is appended to the returned
result's error list (the failure is caught inside the fetch helper and
only logged), so the claim's error-recording part is false at this
input. -/
theorem file_fetch_error_not_recorded_cex :
    demoFileFailRun.result.errors = [] ∧
    demoFileFailRun.result.totalPRs = 1 ∧
    demoFileFailRun.store.prs = [buildPRRecord "o/r" 100 demoCand7 false] := by
  refine ⟨by decide, by decide, by decide⟩

/-- C2 (amended): if the changed-file fetch for a single PR throws, the
failure is caught inside the fetch helper and treated as an empty file
list: the PR's primary record is still upserted with `has_tests` defaulting
to `false`, no entry is appended to the result's error list (the per-item
failure is dropped from the returned result, surviving only in the log),
and the page loop continues through every remaining PR — auxiliary-fetch
failures never abort a fault-free feed and never touch the error list. -/
theorem file_fetch_error_swallowed (aux : RemoteAux) (repository : String)
    (now : Nat) (st : Store) (res : SyncResult) (pr : RawPR) (msg : String)
    (h : aux.filesOf pr.number = .error msg) :
    ((processPR aux repository now st res pr).1.prs =
        addPR st.prs (buildPRRecord repository now pr false) ∧
      (processPR aux repository now st res pr).2.errors = res.errors) ∧
    (∀ (lastT : Option Nat) (force : Bool) (pageNum : Nat)
        (pagesOk : List (List RawPR)) (s : PipeState),
      (runPages aux repository lastT force now pageNum
          (pagesOk.map Except.ok) s).2 = none ∧
      (runPages aux repository lastT force now pageNum
          (pagesOk.map Except.ok) s).1.result.errors = s.result.errors) := by
  constructor
  · constructor
    · rw [processPR_prs]
      have hfiles : fetchPRFiles aux pr.number = [] := by
        simp [fetchPRFiles, h]
      rw [hfiles]
      rfl
    · have hview := processPR_resView aux repository now st res pr
      simpa [resView] using congrArg (fun v => v.2.2.2.1) hview
  · intro lastT force pageNum pagesOk s
    exact ⟨runPages_ok_no_fatal aux repository lastT force now pagesOk pageNum s,
      (runPages_proj aux repository lastT force now
        (pagesOk.map Except.ok) pageNum s).2.1⟩

/-- Witness for C2's amended theorem at the concrete failing client. -/
theorem file_fetch_error_swallowed_witness :
    failFilesAux.filesOf 7 = .error "boom" ∧
    (processPR failFilesAux "o/r" 100 ⟨[], []⟩ (initResult 100)
        demoCand7).1.prs =
      addPR ([] : List PullRequest) (buildPRRecord "o/r" 100 demoCand7 false) ∧
    (processPR failFilesAux "o/r" 100 ⟨[], []⟩ (initResult 100)
        demoCand7).2.errors = [] := by
  have h : failFilesAux.filesOf demoCand7.number = .error "boom" := rfl
  have hmain := file_fetch_error_swallowed failFilesAux "o/r" 100 ⟨[], []⟩
    (initResult 100) demoCand7 "boom" h
  exact ⟨rfl, hmain.1.1, hmain.1.2⟩

end Digest

namespace Digest

/-! ## Referential integrity (C10) -/

theorem addPR_preserves_keys (prs : List PullRequest) (q : PullRequest)
    (p : PullRequest) (hp : p ∈ prs) :
    ∃ p' ∈ addPR prs q, p'.repository = p.repository ∧ p'.number = p.number := by
  by_cases hk : prSameKey p q = true
  · refine ⟨q, List.mem_cons_self _ _, ?_, ?_⟩ <;>
      simp only [prSameKey, Bool.and_eq_true, beq_iff_eq] at hk
    · exact hk.1.symm
    · exact hk.2.symm
  · refine ⟨p, ?_, rfl, rfl⟩
    exact List.mem_cons_of_mem _ (List.mem_filter.mpr ⟨hp, by simp [hk]⟩)

theorem processReviewStep_mem (repository : String) (now prNumber : Nat)
    (acc : Store × SyncResult) (rv : RawReview) :
    ∀ rv' ∈ (processReviewStep repository now prNumber acc rv).1.reviews,
      rv' ∈ acc.1.reviews ∨
        (rv'.repository = repository ∧ rv'.pr_number = prNumber) := by
  intro rv' h
  rcases rv with ⟨u, s, t⟩
  rcases u with _ | u
  · exact Or.inl (by simpa [processReviewStep] using h)
  rcases s with _ | s
  · exact Or.inl (by simpa [processReviewStep] using h)
  rcases t with _ | t
  · exact Or.inl (by simpa [processReviewStep] using h)
  · simp only [processReviewStep, addReview] at h
    rcases List.mem_cons.mp h with h9 | h9
    · right
      rw [h9]
      exact ⟨rfl, rfl⟩
    · exact Or.inl (List.mem_of_mem_filter h9)

theorem foldl_reviewStep_noOrphans (repository : String) (now prNumber : Nat) :
    ∀ (l : List RawReview) (acc : Store × SyncResult),
    (∀ rv ∈ acc.1.reviews, ∃ p ∈ acc.1.prs,
      p.repository = rv.repository ∧ p.number = rv.pr_number) →
    (∃ p ∈ acc.1.prs, p.repository = repository ∧ p.number = prNumber) →
    (∀ rv ∈ (l.foldl (processReviewStep repository now prNumber) acc).1.reviews,
      ∃ p ∈ (l.foldl (processReviewStep repository now prNumber) acc).1.prs,
        p.repository = rv.repository ∧ p.number = rv.pr_number) := by
  intro l
  induction l with
  | nil => intro acc hacc _; exact hacc
  | cons rv rest ih =>
    intro acc hacc hkey
    have hprs : (processReviewStep repository now prNumber acc rv).1.prs =
        acc.1.prs := (processReviewStep_proj repository now prNumber acc rv).1
    apply ih
    · intro rv' hrv'
      rw [hprs]
      rcases processReviewStep_mem repository now prNumber acc rv rv' hrv'
          with hold | ⟨e1, e2⟩
      · exact hacc rv' hold
      · obtain ⟨p, hp, g1, g2⟩ := hkey
        exact ⟨p, hp, g1.trans e1.symm, g2.trans e2.symm⟩
    · rw [hprs]
      exact hkey

theorem processPR_noOrphans (aux : RemoteAux) (repository : String) (now : Nat)
    (st : Store) (res : SyncResult) (pr : RawPR) (h : noOrphans st) :
    noOrphans (processPR aux repository now st res pr).1 := by
  unfold processPR
  dsimp only
  intro rv hrv
  refine foldl_reviewStep_noOrphans repository now pr.number _ _ ?_ ?_ rv hrv
  · intro rv' hrv'
    obtain ⟨p, hp, h1, h2⟩ := h rv' hrv'
    obtain ⟨p', hp', g1, g2⟩ := addPR_preserves_keys st.prs
      (buildPRRecord repository now pr
        (detectTests (fetchPRFiles aux pr.number))) p hp
    exact ⟨p', hp', g1.trans h1, g2.trans h2⟩
  · exact ⟨buildPRRecord repository now pr
      (detectTests (fetchPRFiles aux pr.number)),
      List.mem_cons_self _ _, rfl, rfl⟩

theorem processOnePR_noOrphans (aux : RemoteAux) (repository : String)
    (now : Nat) (force : Bool) (s : PipeState) (pr : RawPR)
    (h : noOrphans s.store) :
    noOrphans (processOnePR aux repository now force s pr).store := by
  unfold processOnePR
  dsimp only
  split_ifs <;>
    first
      | exact h
      | exact processPR_noOrphans aux repository now _ _ pr h

theorem foldl_processOnePR_noOrphans (aux : RemoteAux) (repository : String)
    (now : Nat) (force : Bool) :
    ∀ (prs : List RawPR) (s : PipeState), noOrphans s.store →
    noOrphans ((prs.foldl (processOnePR aux repository now force) s)).store := by
  intro prs
  induction prs with
  | nil => intro s h; exact h
  | cons pr rest ih =>
    intro s h
    exact ih _ (processOnePR_noOrphans aux repository now force s pr h)

theorem runPages_noOrphans (aux : RemoteAux) (repository : String)
    (lastT : Option Nat) (force : Bool) (now : Nat) :
    ∀ (pages : List (Except String (List RawPR))) (pageNum : Nat)
      (s : PipeState), noOrphans s.store →
    noOrphans (runPages aux repository lastT force now pageNum pages s).1.store := by
  intro pages
  induction pages with
  | nil => intro pageNum s h; exact h
  | cons response rest ih =>
    intro pageNum s h
    match response with
    | .error e => exact h
    | .ok prs =>
      by_cases h0 : prs.length = 0
      · simpa [runPages, h0] using h
      · have hfold := foldl_processOnePR_noOrphans aux repository now force prs
          { s with requests := s.requests ++ [⟨pageNum, lastT⟩] } h
        by_cases hshort : prs.length < perPage
        · simpa [runPages, h0, hshort] using hfold
        · simp only [runPages, if_neg h0, if_neg hshort]
          exact ih (pageNum + 1) _ hfold

/-- C10: every review row stored by the pipeline references an existing PR
row.  Each `processPR` upserts the PR's primary record before any of its
review records — after it runs, a PR row keyed `(repository, pr.number)` is
present — and a whole `syncRepository` run preserves the store's
referential integrity: starting from a store with no orphan reviews, no
sync operation can leave a review row whose `(repository, pr_number)` has
no PR row, which is what the `reviews` table's enforced foreign key
demands. -/
theorem reviews_never_orphaned (aux : RemoteAux) (repository : String)
    (store : Store) (since : Option Nat) (force : Bool) (now : Nat)
    (pages : List (Except String (List RawPR))) (h : noOrphans store) :
    noOrphans (syncRepository aux repository store since force now
      pages).store ∧
    (∀ (st : Store) (res : SyncResult) (pr : RawPR),
      ∃ p ∈ (processPR aux repository now st res pr).1.prs,
        p.repository = repository ∧ p.number = pr.number) := by
  constructor
  · rw [syncRepository_store, fetchPRsIncremental_eq]
    exact runPages_noOrphans aux repository _ force now pages 1 _ h
  · intro st res pr
    rw [processPR_prs]
    exact ⟨buildPRRecord repository now pr
        (detectTests (fetchPRFiles aux pr.number)),
      List.mem_cons_self _ _, rfl, rfl⟩

/-- Witness for C10 at a concrete empty store and one-page feed. -/
theorem reviews_never_orphaned_witness :
    noOrphans ⟨[], []⟩ ∧
    noOrphans (syncRepository okAux "o/r" ⟨[], []⟩ none false 100
      [.ok [demoCand7]]).store := by
  have h0 : noOrphans (⟨[], []⟩ : Store) := by
    intro rv hrv
    cases hrv
  exact ⟨h0, (reviews_never_orphaned okAux "o/r" ⟨[], []⟩ none false 100
    [.ok [demoCand7]] h0).1⟩

end Digest

namespace Digest

/-! ## Test-pattern matching (C8) -/

theorem hasInfixB_iff (pat : List Char) :
    ∀ s, hasInfixB pat s = true ↔ pat <:+: s := by
  intro s
  induction s with
  | nil =>
    simp [hasInfixB, List.isPrefixOf_iff_prefix]
  | cons c rest ih =>
    simp [hasInfixB, List.isPrefixOf_iff_prefix, ih, List.infix_cons_iff,
      Bool.or_eq_true]

theorem dirSegment_iff (f : List Char) :
    ((("test/".data <+: f ∨ "tests/".data <+: f) ∨
      "/test/".data <:+: f) ∨ "/tests/".data <:+: f) ↔
    (∃ pre seg post, (seg = "test".data ∨ seg = "tests".data) ∧
      f = pre ++ seg ++ '/' :: post ∧ (pre = [] ∨ ∃ q, pre = q ++ ['/'])) := by
  constructor
  · rintro (((⟨t, ht⟩ | ⟨t, ht⟩) | ⟨q, t, ht⟩) | ⟨q, t, ht⟩)
    · exact ⟨[], "test".data, t, Or.inl rfl, by rw [← ht]; rfl, Or.inl rfl⟩
    · exact ⟨[], "tests".data, t, Or.inr rfl, by rw [← ht]; rfl, Or.inl rfl⟩
    · refine ⟨q ++ ['/'], "test".data, t, Or.inl rfl, ?_, Or.inr ⟨q, rfl⟩⟩
      rw [← ht]
      simp
    · refine ⟨q ++ ['/'], "tests".data, t, Or.inr rfl, ?_, Or.inr ⟨q, rfl⟩⟩
      rw [← ht]
      simp
  · rintro ⟨pre, seg, post, hseg, hf, hpre⟩
    rcases hpre with rfl | ⟨q, rfl⟩
    · rcases hseg with rfl | rfl
      · exact Or.inl (Or.inl (Or.inl ⟨post, by rw [hf]; rfl⟩))
      · exact Or.inl (Or.inl (Or.inr ⟨post, by rw [hf]; rfl⟩))
    · rcases hseg with rfl | rfl
      · refine Or.inl (Or.inr ⟨q, post, ?_⟩)
        rw [hf]
        simp
      · refine Or.inr ⟨q, post, ?_⟩
        rw [hf]
        simp

theorem matchesTestPattern_iff (f : String) :
    matchesTestPattern f = true ↔ amendedFileMatches f := by
  unfold matchesTestPattern amendedFileMatches
  simp only [Bool.or_eq_true, hasInfixB_iff, List.isPrefixOf_iff_prefix]
  rw [dirSegment_iff]
  simp [or_assoc]

/-- C8 counterexample: a changed file whose whole path is the single
segment `tests` matches the claim's pattern set as stated (its path has a
segment `tests`), yet `detectTests` returns `false` — the source's
`(^|/)tests?/` pattern only matches a `test`/`tests` segment followed by a
further `/`, i.e. a directory component. -/
theorem path_segment_tests_cex :
    detectTests ["tests"] = false ∧ specFileMatches "tests" := by
  constructor
  · decide
  · unfold specFileMatches
    exact Or.inr (Or.inr (Or.inl ⟨"tests".data, by decide, Or.inr rfl⟩))

/-- C8 (amended): `has_tests` is computed as true iff at least one changed
file's lowercased path matches at least one pattern of the fixed set —
substring `.test.`, substring `.spec.`, a *directory* path segment `test`
or `tests` (a segment delimited by start-of-path or `/` on the left and by
a further `/` on the right; a bare final segment does not count), substring
`__tests__`, substring `.stories.`, or the tool names `cypress/`,
`playwright/`, `jest.config`, `vitest.config` as substrings — all matching
case-insensitive; for an empty file list the result is false. -/
theorem detectTests_iff_amended (files : List String) :
    (detectTests files = true ↔ ∃ f ∈ files, amendedFileMatches f) ∧
    detectTests [] = false := by
  constructor
  · unfold detectTests
    rw [List.any_eq_true]
    constructor
    · rintro ⟨x, hx, hm⟩
      exact ⟨x, hx, (matchesTestPattern_iff x).mp hm⟩
    · rintro ⟨x, hx, hm⟩
      exact ⟨x, hx, (matchesTestPattern_iff x).mpr hm⟩
  · rfl

end Digest

namespace Digest

/-! ## The orchestrator loop (C9) -/

theorem recordedUpdate_name (now : Nat) (r : TrackedRepo)
    (oc : Except String SyncResult) :
    (recordedUpdate now r oc).name = r.name := by
  cases oc <;> rfl

theorem updateRepositorySync_mem_of_ne (ws : List TrackedRepo) (name : String)
    (t : Nat) (errs : List String) (r : TrackedRepo) (h : r ∈ ws)
    (hne : r.name ≠ name) : r ∈ updateRepositorySync ws name t errs := by
  unfold updateRepositorySync
  exact List.mem_map.mpr ⟨r, h, by simp [hne]⟩

theorem syncAllStep_ws_of_ne (now : Nat) (acc : SyncAllResult × List TrackedRepo)
    (item : String × Except String SyncResult) (r : TrackedRepo)
    (h : r ∈ acc.2) (hne : r.name ≠ item.1) :
    r ∈ (syncAllStep now acc item).2 := by
  unfold syncAllStep
  rcases item with ⟨name, oc⟩
  cases oc <;> exact updateRepositorySync_mem_of_ne _ _ _ _ r h hne

theorem foldl_syncAllStep_ws_of_not_mem (now : Nat) :
    ∀ (outcomes : List (String × Except String SyncResult))
      (acc : SyncAllResult × List TrackedRepo) (r : TrackedRepo),
    r ∈ acc.2 → r.name ∉ outcomes.map (·.1) →
    r ∈ (outcomes.foldl (syncAllStep now) acc).2 := by
  intro outcomes
  induction outcomes with
  | nil => intro acc r h _; exact h
  | cons o rest ih =>
    intro acc r h hnot
    simp only [List.map_cons, List.mem_cons, not_or] at hnot
    exact ih _ r (syncAllStep_ws_of_ne now acc o r h hnot.1) hnot.2

theorem syncAllStep_records (now : Nat) (acc : SyncAllResult × List TrackedRepo)
    (item : String × Except String SyncResult) (r : TrackedRepo)
    (h : r ∈ acc.2) (heq : r.name = item.1) :
    recordedUpdate now r item.2 ∈ (syncAllStep now acc item).2 := by
  unfold syncAllStep updateRepositorySync recordedUpdate
  rcases item with ⟨name, oc⟩
  cases oc with
  | ok res =>
    refine List.mem_map.mpr ⟨r, h, ?_⟩
    simp [heq, lastN]
  | error e =>
    refine List.mem_map.mpr ⟨r, h, ?_⟩
    simp [heq, lastN]

theorem foldl_syncAllStep_records (now : Nat) :
    ∀ (outcomes : List (String × Except String SyncResult))
      (acc : SyncAllResult × List TrackedRepo),
    (outcomes.map (·.1)).Nodup →
    ∀ item ∈ outcomes, ∀ r ∈ acc.2, r.name = item.1 →
    recordedUpdate now r item.2 ∈ (outcomes.foldl (syncAllStep now) acc).2 := by
  intro outcomes
  induction outcomes with
  | nil => intro acc _ item hitem; cases hitem
  | cons o rest ih =>
    intro acc hnodup item hitem r hr heq
    simp only [List.map_cons, List.nodup_cons] at hnodup
    rcases List.mem_cons.mp hitem with rfl | hitem'
    · have hstep := syncAllStep_records now acc item r hr heq
      apply foldl_syncAllStep_ws_of_not_mem now rest _ _ hstep
      rw [recordedUpdate_name, heq]
      exact hnodup.1
    · have hne : r.name ≠ o.1 := by
        rw [heq]
        intro hcontra
        exact hnodup.1 (hcontra ▸ List.mem_map.mpr ⟨item, hitem', rfl⟩)
      exact ih _ hnodup.2 item hitem' r
        (syncAllStep_ws_of_ne now acc o r hr hne) heq

theorem foldl_syncAllStep_stats (now : Nat) :
    ∀ (outcomes : List (String × Except String SyncResult))
      (acc : SyncAllResult × List TrackedRepo),
    (outcomes.foldl (syncAllStep now) acc).1.totalRepositories =
      acc.1.totalRepositories ∧
    (outcomes.foldl (syncAllStep now) acc).1.results.map (·.repository) =
      acc.1.results.map (·.repository) ++ outcomes.map (·.1) ∧
    (outcomes.foldl (syncAllStep now) acc).1.successfulSyncs =
      acc.1.successfulSyncs + (outcomes.filter (fun o => o.2.isOk)).length ∧
    (outcomes.foldl (syncAllStep now) acc).1.failedSyncs =
      acc.1.failedSyncs + (outcomes.filter (fun o => !o.2.isOk)).length := by
  intro outcomes
  induction outcomes with
  | nil => intro acc; simp
  | cons o rest ih =>
    intro acc
    rcases o with ⟨name, oc⟩
    cases oc with
    | ok res =>
      have h := ih (syncAllStep now acc (name, Except.ok res))
      have hstep2 : (syncAllStep now acc (name, Except.ok res)).1.results =
          acc.1.results ++ [⟨name, true, some res, none⟩] := rfl
      have hstep3 :
          (syncAllStep now acc (name, Except.ok res)).1.successfulSyncs =
            acc.1.successfulSyncs + 1 := rfl
      have hstep4 : (syncAllStep now acc (name, Except.ok res)).1.failedSyncs =
          acc.1.failedSyncs := rfl
      refine ⟨List.foldl_cons .. ▸ h.1.trans rfl, ?_, ?_, ?_⟩
      · rw [List.foldl_cons, h.2.1, hstep2]
        simp
      · rw [List.foldl_cons, h.2.2.1, hstep3,
          List.filter_cons_of_pos (by rfl)]
        simp
        omega
      · rw [List.foldl_cons, h.2.2.2, hstep4,
          List.filter_cons_of_neg (by simp [Except.isOk, Except.toBool])]
    | error e =>
      have h := ih (syncAllStep now acc (name, Except.error e))
      have hstep2 : (syncAllStep now acc (name, Except.error e)).1.results =
          acc.1.results ++ [⟨name, false, none, some e⟩] := rfl
      have hstep3 :
          (syncAllStep now acc (name, Except.error e)).1.successfulSyncs =
            acc.1.successfulSyncs := rfl
      have hstep4 : (syncAllStep now acc (name, Except.error e)).1.failedSyncs =
          acc.1.failedSyncs + 1 := rfl
      refine ⟨List.foldl_cons .. ▸ h.1.trans rfl, ?_, ?_, ?_⟩
      · rw [List.foldl_cons, h.2.1, hstep2]
        simp
      · rw [List.foldl_cons, h.2.2.1, hstep3,
          List.filter_cons_of_neg (by simp [Except.isOk, Except.toBool])]
      · rw [List.foldl_cons, h.2.2.2, hstep4,
          List.filter_cons_of_pos (by rfl)]
        simp
        omega

/-- C9: `syncAll` processes the supplied repositories strictly sequentially
in the order given: the aggregate result has one entry per repository, in
feed order; the success and failure tallies count exactly the succeeded and
thrown outcomes and sum to the total, so one repository's fatal failure
never prevents subsequent repositories from being attempted; and for every
repository — whether its pipeline returned a result or threw — the
caller-supplied tracking state receives the recorded outcome (timestamp
and error list) for that repository (stated for feeds without duplicate
repository names). -/
theorem syncAll_sequential_and_isolating (now : Nat) (ws : List TrackedRepo)
    (outcomes : List (String × Except String SyncResult))
    (hnodup : (outcomes.map (·.1)).Nodup) :
    (syncAll now ws outcomes).1.totalRepositories = outcomes.length ∧
    (syncAll now ws outcomes).1.results.map (·.repository) =
      outcomes.map (·.1) ∧
    (syncAll now ws outcomes).1.successfulSyncs =
      (outcomes.filter (fun o => o.2.isOk)).length ∧
    (syncAll now ws outcomes).1.failedSyncs =
      (outcomes.filter (fun o => !o.2.isOk)).length ∧
    (syncAll now ws outcomes).1.successfulSyncs +
      (syncAll now ws outcomes).1.failedSyncs = outcomes.length ∧
    (∀ item ∈ outcomes, ∀ r ∈ ws, r.name = item.1 →
      recordedUpdate now r item.2 ∈ (syncAll now ws outcomes).2) := by
  have hstats := foldl_syncAllStep_stats now outcomes
    (⟨outcomes.length, 0, 0, []⟩, ws)
  have hsum : (outcomes.filter (fun o => o.2.isOk)).length +
      (outcomes.filter (fun o => !o.2.isOk)).length = outcomes.length := by
    symm
    simpa using List.length_eq_length_filter_add
      (l := outcomes) (fun o => o.2.isOk)
  unfold syncAll
  refine ⟨hstats.1, by simpa using hstats.2.1, by simpa using hstats.2.2.1,
    by simpa using hstats.2.2.2, ?_, ?_⟩
  · rw [hstats.2.2.1, hstats.2.2.2]
    simpa using hsum
  · intro item hitem r hr heq
    exact foldl_syncAllStep_records now outcomes _ hnodup item hitem r hr heq

/-- Witness for C9 at a two-repository feed: one succeeding, one throwing. -/
theorem syncAll_sequential_and_isolating_witness :
    (([("o/r", Except.ok (initResult 100)),
        ("x/y", Except.error "boom")].map
          (fun o => o.1) : List String).Nodup) ∧
    (syncAll 100 [⟨"o/r", none, []⟩, ⟨"x/y", none, []⟩]
      [("o/r", Except.ok (initResult 100)),
        ("x/y", Except.error "boom")]).1.results.map (·.repository) =
      ["o/r", "x/y"] ∧
    (syncAll 100 [⟨"o/r", none, []⟩, ⟨"x/y", none, []⟩]
      [("o/r", Except.ok (initResult 100)),
        ("x/y", Except.error "boom")]).1.successfulSyncs = 1 ∧
    (syncAll 100 [⟨"o/r", none, []⟩, ⟨"x/y", none, []⟩]
      [("o/r", Except.ok (initResult 100)),
        ("x/y", Except.error "boom")]).1.failedSyncs = 1 ∧
    recordedUpdate 100 ⟨"x/y", none, []⟩ (Except.error "boom") ∈
      (syncAll 100 [⟨"o/r", none, []⟩, ⟨"x/y", none, []⟩]
        [("o/r", Except.ok (initResult 100)),
          ("x/y", Except.error "boom")]).2 := by
  have hnodup : (([("o/r", Except.ok (initResult 100)),
      ("x/y", Except.error "boom")].map
        (fun o => o.1) : List String)).Nodup := by decide
  have hmain := syncAll_sequential_and_isolating 100
    [⟨"o/r", none, []⟩, ⟨"x/y", none, []⟩]
    [("o/r", Except.ok (initResult 100)), ("x/y", Except.error "boom")]
    hnodup
  refine ⟨hnodup, by simpa using hmain.2.1, by simpa using hmain.2.2.1,
    by simpa using hmain.2.2.2.1, ?_⟩
  exact hmain.2.2.2.2.2 ("x/y", Except.error "boom")
    (List.mem_cons_of_mem _ (List.mem_cons_self _ _))
    ⟨"x/y", none, []⟩ (List.mem_cons_of_mem _ (List.mem_cons_self _ _)) rfl

end Digest
